import Mathlib

/-!
Verification of the resumable, concurrent evaluation engine and the
label-arbitration / metrics pipeline of the confidential-websearch
evaluation harness.

The development shallowly embeds the Python sources:
* `run_e2e_pii_eval.py` — the checkpointed engine (`get_contiguous_completed`,
  the `results_dict` / `completed_indices` state, the checkpoint write
  condition) and `calculate_e2e_metrics`;
* `client.py` — the `LabelerClient._call_api` retry loop and the client
  constructors' credential handling;
* `run_eval.py` — per-sample arbitration and error handling;
* `metrics.py` — confusion-matrix-derived statistics.
-/

namespace ConfidentialWebsearch

/-! ## Contiguous frontier (`run_e2e_pii_eval.py`, `get_contiguous_completed`)

The Python code keeps `completed_indices` as a set of naturals and scans
forward from 0:

    idx = 0
    while idx in completed_indices:
        idx += 1
    return idx

We embed the scan with explicit fuel (the loop terminates because the set is
finite: it can consume at most `card + 1` distinct indices starting at 0). -/

/-- Fuel-indexed embedding of the `while idx in completed_indices: idx += 1`
scan of `get_contiguous_completed`. -/
def scanFrontier (completed : Finset ℕ) : ℕ → ℕ → ℕ
  | 0, idx => idx
  | fuel + 1, idx => if idx ∈ completed then scanFrontier completed fuel (idx + 1) else idx

/-- Embedding of `get_contiguous_completed`: linear scan forward from 0,
returning the first index not in the completed set. -/
def get_contiguous_completed (completed : Finset ℕ) : ℕ :=
  scanFrontier completed (completed.card + 1) 0

theorem exists_not_mem_finset (S : Finset ℕ) : ∃ n, n ∉ S := by
  by_contra h
  push_neg at h
  have hsub : Finset.range (S.card + 1) ⊆ S := fun n _ => h n
  have := Finset.card_le_card hsub
  simp [Finset.card_range] at this

/-- Mathematical description of the scan's result: the least natural number
not in the completed set. -/
def leastMissing (S : Finset ℕ) : ℕ :=
  Nat.find (exists_not_mem_finset S)

theorem leastMissing_not_mem (S : Finset ℕ) : leastMissing S ∉ S :=
  Nat.find_spec (exists_not_mem_finset S)

theorem leastMissing_min (S : Finset ℕ) {m : ℕ} (hm : m < leastMissing S) : m ∈ S := by
  have := Nat.find_min (exists_not_mem_finset S) hm
  simpa using this

theorem mem_of_lt_leastMissing {S : Finset ℕ} {m : ℕ} (hm : m < leastMissing S) : m ∈ S :=
  leastMissing_min S hm

theorem leastMissing_le_card (S : Finset ℕ) : leastMissing S ≤ S.card := by
  have hsub : Finset.range (leastMissing S) ⊆ S := by
    intro m hm
    exact leastMissing_min S (Finset.mem_range.mp hm)
  have := Finset.card_le_card hsub
  simpa [Finset.card_range] using this

theorem scanFrontier_eq_leastMissing (S : Finset ℕ) :
    ∀ fuel idx, (∀ m < idx, m ∈ S) → leastMissing S < idx + fuel →
      scanFrontier S fuel idx = leastMissing S := by
  intro fuel
  induction fuel with
  | zero =>
    intro idx hlow hfuel
    exact absurd (hlow _ (by omega)) (leastMissing_not_mem S)
  | succ n ih =>
    intro idx hlow hfuel
    by_cases hidx : idx ∈ S
    · have hne : leastMissing S ≠ idx := fun h => leastMissing_not_mem S (h ▸ hidx)
      have hlow' : ∀ m < idx + 1, m ∈ S := by
        intro m hm
        rcases Nat.lt_succ_iff_lt_or_eq.mp hm with h | h
        · exact hlow m h
        · exact h ▸ hidx
      have hge : idx ≤ leastMissing S := by
        by_contra hcon
        exact leastMissing_not_mem S (hlow _ (by omega))
      rw [scanFrontier, if_pos hidx]
      exact ih (idx + 1) hlow' (by omega)
    · have hge : leastMissing S ≤ idx := by
        by_contra hcon
        exact hidx (leastMissing_min S (by omega))
      have hle : idx ≤ leastMissing S := by
        by_contra hcon
        exact leastMissing_not_mem S (hlow _ (by omega))
      rw [scanFrontier, if_neg hidx]
      omega

theorem get_contiguous_completed_eq (S : Finset ℕ) :
    get_contiguous_completed S = leastMissing S := by
  have := leastMissing_le_card S
  exact scanFrontier_eq_leastMissing S (S.card + 1) 0 (by omega) (by omega)

theorem get_contiguous_completed_not_mem (S : Finset ℕ) :
    get_contiguous_completed S ∉ S := by
  rw [get_contiguous_completed_eq]
  exact leastMissing_not_mem S

theorem get_contiguous_completed_mem_below (S : Finset ℕ) :
    ∀ m < get_contiguous_completed S, m ∈ S := by
  rw [get_contiguous_completed_eq]
  exact fun m hm => leastMissing_min S hm

/-- Modelled from the spec: §4.4 describes the recomputed quantity as "the
highest contiguous completed index (the smallest index not yet in the
completed set, minus one)". -/
def specHighestContiguousCompleted (S : Finset ℕ) : ℕ :=
  leastMissing S - 1

theorem leastMissing_concrete :
    leastMissing ({0, 1, 3, 4} : Finset ℕ) = 2 := by
  rw [leastMissing, Nat.find_eq_iff]
  refine ⟨by decide, ?_⟩
  intro m hm
  interval_cases m <;> decide

theorem get_contiguous_completed_concrete :
    get_contiguous_completed ({0, 1, 3, 4} : Finset ℕ) = 2 := by
  rw [get_contiguous_completed_eq, leastMissing_concrete]

theorem leastMissing_mono {S T : Finset ℕ} (h : S ⊆ T) :
    leastMissing S ≤ leastMissing T := by
  by_contra hcon
  exact leastMissing_not_mem T (h (leastMissing_min S (by omega)))

/-! ## Engine state (`run_e2e_pii_eval.py`, `run_e2e_pii_eval`)

The loop's mutable state consists of `results_dict` (an index-keyed map of
per-item results), `completed_indices`, and the resume point `start_index`
loaded from the checkpoint file. A worker completion executes
`results_dict[idx] = result; completed_indices.add(idx)`. -/

structure EngineState (α : Type) where
  startIndex : ℕ
  total : ℕ
  resultsDict : ℕ → Option α
  completed : Finset ℕ

/-- Embedding of the loop-entry state: `start_index = checkpoint["last_index"]`,
`results_dict = {i: r for i, r in enumerate(results)}`,
`completed_indices = set(range(start_index))`. -/
def initState (α : Type) (k N : ℕ) (loaded : List α) : EngineState α :=
  { startIndex := k
    total := N
    resultsDict := fun i => loaded.get? i
    completed := Finset.range k }

/-- Embedding of a worker completion arriving in the `as_completed` loop:
`results_dict[idx] = result` followed by `completed_indices.add(idx)`. -/
def recordCompletion {α : Type} (s : EngineState α) (idx : ℕ) (r : α) : EngineState α :=
  { s with
    resultsDict := Function.update s.resultsDict idx (some r)
    completed := insert idx s.completed }

/-- Embedding of `items_to_process`: the indices of `eval_items` with
`idx >= start_index`, in order. -/
def items_to_process (startIndex N : ℕ) : List ℕ :=
  (List.range N).filter (fun idx => decide (startIndex ≤ idx))

/-- Embedding of the checkpoint body
`[results_dict[i] for i in range(contiguous) if i in results_dict]`. -/
def orderedResults {α : Type} (s : EngineState α) (contiguous : ℕ) : List α :=
  (List.range contiguous).filterMap s.resultsDict

/-- Embedding of the periodic checkpoint guard
`contiguous > start_index and contiguous % checkpoint_interval == 0`
(with `checkpoint_file` set). -/
def shouldCheckpoint (checkpoint_interval startIndex contiguous : ℕ) : Bool :=
  decide (startIndex < contiguous) && decide (contiguous % checkpoint_interval = 0)

/-- Modelled from the spec: "A checkpoint write is triggered when the frontier
crosses a fixed interval boundary (e.g., every 50 items) and exceeds the
previous checkpoint's frontier" — some positive multiple of the interval lies
in `(prevFrontier, newFrontier]`, and the new frontier exceeds the previous
checkpoint's frontier. -/
def specCrossesBoundary (interval prevFrontier newFrontier : ℕ) : Bool :=
  decide (prevFrontier < newFrontier) &&
    (List.range (newFrontier + 1)).any fun m =>
      decide (0 < m) && decide (m % interval = 0) && decide (prevFrontier < m)

/-- States reachable by the engine loop: the loop is entered from a loaded
checkpoint `(k, loaded)` (with `loaded` the gap-free prefix the engine itself
wrote, so `loaded.length = k`; a fresh run is `k = 0`, `loaded = []`), and each
step records the completion of one dispatched item — an index in
`items_to_process` not yet completed. Completions may arrive in any order. -/
inductive Reachable (α : Type) (k N : ℕ) (loaded : List α) : EngineState α → Prop
  | init : loaded.length = k → Reachable α k N loaded (initState α k N loaded)
  | step {s : EngineState α} {idx : ℕ} (r : α) :
      Reachable α k N loaded s → idx ∉ s.completed → k ≤ idx → idx < N →
      Reachable α k N loaded (recordCompletion s idx r)

/-- Core engine invariant: every completed index has a populated slot in
`results_dict`. -/
def ResultsPopulated {α : Type} (s : EngineState α) : Prop :=
  ∀ i ∈ s.completed, (s.resultsDict i).isSome

theorem reachable_resultsPopulated {α : Type} {k N : ℕ} {loaded : List α}
    {s : EngineState α} (h : Reachable α k N loaded s) : ResultsPopulated s := by
  induction h with
  | init hlen =>
    intro i hi
    rw [initState] at hi ⊢
    simp only [Finset.mem_range] at hi
    have hlt : i < loaded.length := by omega
    show (loaded.get? i).isSome = true
    cases hget : loaded.get? i with
    | none => exact absurd (List.get?_eq_none.mp hget) (by omega)
    | some r => rfl
  | step r _ hnot hk hN ih =>
    rename_i s' idx hprev
    intro i hi
    rw [recordCompletion] at hi ⊢
    simp only [Finset.mem_insert] at hi
    by_cases hcase : i = idx
    · subst hcase
      simp [Function.update_same]
    · rcases hi with hi | hi
      · exact absurd hi hcase
      · simpa [Function.update_noteq hcase] using ih i hi

theorem filterMap_length_of_all_isSome {α β : Type} (f : α → Option β) :
    ∀ l : List α, (∀ x ∈ l, (f x).isSome) →
      (l.filterMap f).length = l.length ∧
        ∀ i, (l.filterMap f).get? i = (l.get? i).bind f := by
  intro l
  induction l with
  | nil => intro _; exact ⟨rfl, fun i => by cases i <;> simp⟩
  | cons a l ih =>
    intro hall
    have ha : (f a).isSome := hall a (List.mem_cons_self a l)
    obtain ⟨b, hb⟩ := Option.isSome_iff_exists.mp ha
    have hrest := ih (fun x hx => hall x (List.mem_cons_of_mem a hx))
    constructor
    · simp [List.filterMap_cons, hb, hrest.1]
    · intro i
      cases i with
      | zero => simp [List.filterMap_cons, hb]
      | succ n => simpa [List.filterMap_cons, hb] using hrest.2 n

/-! ## Retry policy (`client.py`, `LabelerClient._call_api`)

The Python loop, for `attempt in range(max_retries)` with `max_retries = 5`:
a successful call returns its parsed body; an `HTTPStatusError` with status in
`(502, 503, 504, 429)` sleeps `(2 ** attempt) * 2 + 1` seconds and continues;
any other `HTTPStatusError` re-raises; `TimeoutException` / `ConnectError`
always sleep and continue; after the loop, `raise last_error`. We model one
attempt's outcome as `Except CallError α` and return, alongside the final
outcome, the list of sleeps performed. -/

inductive CallError
  | httpStatus (code : ℕ)
  | timeoutExc
  | connectExc
deriving DecidableEq

/-- Status codes treated as transient: `e.response.status_code in (502, 503, 504, 429)`. -/
def isTransientStatus (code : ℕ) : Bool :=
  code == 502 || code == 503 || code == 504 || code == 429

/-- Errors that make `_call_api` sleep and continue rather than re-raise. -/
def isTransient : CallError → Bool
  | CallError.httpStatus code => isTransientStatus code
  | CallError.timeoutExc => true
  | CallError.connectExc => true

/-- Sleep computed by `_call_api`: `wait_time = (2 ** attempt) * 2 + 1`. -/
def backoffWait (attempt : ℕ) : ℕ :=
  2 ^ attempt * 2 + 1

/-- Embedding of the `for attempt in range(max_retries)` loop, structural on the
number of remaining iterations; carries `last_error` and the sleeps so far.
`Except.error none` is the degenerate `raise None` (unreachable for
`max_retries = 5`). -/
def callApiAux {α : Type} (attempts : ℕ → Except CallError α) :
    ℕ → ℕ → Option CallError → List ℕ → Except (Option CallError) α × List ℕ
  | 0, _, lastError, waits => (Except.error lastError, waits)
  | remaining + 1, attempt, _, waits =>
    match attempts attempt with
    | Except.ok a => (Except.ok a, waits)
    | Except.error e =>
      if isTransient e then
        callApiAux attempts remaining (attempt + 1) (some e) (waits ++ [backoffWait attempt])
      else
        (Except.error (some e), waits)

/-- Embedding of `LabelerClient._call_api` with its default `max_retries = 5`,
over a given sequence of per-attempt outcomes. -/
def call_api {α : Type} (attempts : ℕ → Except CallError α) :
    Except (Option CallError) α × List ℕ :=
  callApiAux attempts 5 0 none []

/-! ## Arbitration (`run_eval.py`, `run_prompt_injection_eval` / `run_pii_eval`)

Per sample: `expected = sample label; predicted = result.violation;
if arbiter and expected and not predicted:` call `arbiter.arbitrate` inside its
own `try`; on `classifier_correct` flip `expected` to `False` and count an
override; on any arbitration exception keep `expected`. The pair
`(expected, predicted)` is then appended to `y_true` / `y_pred`. The outer
`try` around the classification call skips the append entirely on failure and
increments `error_count`. -/

structure ArbitrationDecision where
  classifier_correct : Bool
  explanation : String
deriving DecidableEq

structure ArbitrationStep where
  expected : Bool
  invoked : Bool
  overrode : Bool
deriving DecidableEq

/-- Embedding of the arbitration block for one sample. -/
def arbitrateSample (arbiterEnabled datasetLabel predicted : Bool)
    (arbiterCall : Except String ArbitrationDecision) : ArbitrationStep :=
  if arbiterEnabled && datasetLabel && !predicted then
    match arbiterCall with
    | Except.ok d =>
      if d.classifier_correct then
        { expected := false, invoked := true, overrode := true }
      else
        { expected := datasetLabel, invoked := true, overrode := false }
    | Except.error _ => { expected := datasetLabel, invoked := true, overrode := false }
  else
    { expected := datasetLabel, invoked := false, overrode := false }

/-- Embedding of one iteration of the sample loop: `none` when the
classification call raised (outer `except`: the sample is excluded from
`y_true` / `y_pred`), otherwise the `(expected, predicted)` pair appended. -/
def processSample (arbiterEnabled datasetLabel : Bool)
    (classification : Except String Bool)
    (arbiterCall : Except String ArbitrationDecision) : Option (Bool × Bool) :=
  match classification with
  | Except.error _ => none
  | Except.ok predicted =>
    some ((arbitrateSample arbiterEnabled datasetLabel predicted arbiterCall).expected,
      predicted)

/-- One sample's inputs in the loop: dataset label, classification outcome,
arbitration outcome. -/
structure SampleRun where
  datasetLabel : Bool
  classification : Except String Bool
  arbiterCall : Except String ArbitrationDecision

/-- Embedding of the `y_true` / `y_pred` accumulation over the whole sample
loop. -/
def runEvalPairs (arbiterEnabled : Bool) (samples : List SampleRun) : List (Bool × Bool) :=
  samples.filterMap fun s =>
    processSample arbiterEnabled s.datasetLabel s.classification s.arbiterCall

/-- Embedding of `error_count`: samples whose classification call raised. -/
def runEvalErrorCount (samples : List SampleRun) : ℕ :=
  samples.countP fun s =>
    match s.classification with
    | Except.error _ => true
    | Except.ok _ => false

/-! ## Metrics (`metrics.py`, `calculate_metrics`)

The confusion matrix follows sklearn's `confusion_matrix(labels=[0, 1])`
contract: `tn` counts pairs with both labels 0, `fp` true 0 / pred 1, `fn`
true 1 / pred 0, `tp` both 1; `precision_score` / `recall_score` are called
with `zero_division=0`. Scores are modelled over `ℚ`. -/

structure Confusion where
  tp : ℕ
  fp : ℕ
  fn : ℕ
  tn : ℕ
deriving DecidableEq

/-- Confusion-matrix counts of a `(y_true, y_pred)` pair list, per the sklearn
`confusion_matrix` contract used by `calculate_metrics`. -/
def confusionCounts (pairs : List (Bool × Bool)) : Confusion :=
  { tp := pairs.countP fun p => p.1 && p.2
    fp := pairs.countP fun p => !p.1 && p.2
    fn := pairs.countP fun p => p.1 && !p.2
    tn := pairs.countP fun p => !p.1 && !p.2 }

/-- Embedding of `precision_score(..., zero_division=0)`: `tp / (tp + fp)`,
0 when the denominator is 0. -/
def precision_score (c : Confusion) : ℚ :=
  if c.tp + c.fp = 0 then 0 else (c.tp : ℚ) / (c.tp + c.fp)

/-- Embedding of `recall_score(..., zero_division=0)`: `tp / (tp + fn)`,
0 when the denominator is 0. -/
def recall_score (c : Confusion) : ℚ :=
  if c.tp + c.fn = 0 then 0 else (c.tp : ℚ) / (c.tp + c.fn)

/-! ## E2E metrics (`run_e2e_pii_eval.py`, `process_single_item` and
`calculate_e2e_metrics`)

Each query's result dict is initialised with `safeguard_flagged = False` and
`ground_truth_pii = False`; a failed safeguard or labeler call records an
error string and leaves the default in place. `calculate_e2e_metrics` then
classifies every query result by `(safeguard_flagged, ground_truth_pii)`
alone, and computes `precision = 100.0 * tp / (tp + fp)` with `100.0` when
`tp + fp == 0` (likewise recall). -/

structure QueryResult where
  safeguard_flagged : Bool
  ground_truth_pii : Bool
  safeguard_error : Option String
  labeler_error : Option String
deriving DecidableEq

/-- Embedding of the per-query body of `process_single_item`. -/
def processQuery (safeguardCall : Except String Bool)
    (labelerCall : Except String Bool) : QueryResult :=
  let q0 : QueryResult :=
    { safeguard_flagged := false, ground_truth_pii := false,
      safeguard_error := none, labeler_error := none }
  let q1 :=
    match safeguardCall with
    | Except.ok v => { q0 with safeguard_flagged := v }
    | Except.error e => { q0 with safeguard_error := some e }
  match labelerCall with
  | Except.ok g => { q1 with ground_truth_pii := g }
  | Except.error e => { q1 with labeler_error := some e }

/-- Embedding of the confusion loop of `calculate_e2e_metrics`:
`predicted = qr.get("safeguard_flagged", False)`,
`actual = qr.get("ground_truth_pii", False)`. -/
def e2eConfusion (qrs : List QueryResult) : Confusion :=
  { tp := qrs.countP fun qr => qr.safeguard_flagged && qr.ground_truth_pii
    fp := qrs.countP fun qr => qr.safeguard_flagged && !qr.ground_truth_pii
    fn := qrs.countP fun qr => !qr.safeguard_flagged && qr.ground_truth_pii
    tn := qrs.countP fun qr => !qr.safeguard_flagged && !qr.ground_truth_pii }

/-- Embedding of the precision computation of `calculate_e2e_metrics`. -/
def e2ePrecision (c : Confusion) : ℚ :=
  if 0 < c.tp + c.fp then 100 * (c.tp : ℚ) / (c.tp + c.fp) else 100

/-- Embedding of the recall computation of `calculate_e2e_metrics`. -/
def e2eRecall (c : Confusion) : ℚ :=
  if 0 < c.tp + c.fn then 100 * (c.tp : ℚ) / (c.tp + c.fn) else 100

/-! ## Client constructors (`client.py`, `run_e2e_pii_eval.py`)

Credential resolution is `api_key or os.environ.get("SAFEGUARD_API_KEY", "")`
(Python `or` falls through on an empty string). `SafeguardClient.__init__` and
`SearchQueryGenerator.__init__` raise `ValueError` when the resolved key is
empty; `LabelerClient.__init__` stores the key without any check. -/

/-- Embedding of Python's `a or b` over an optional string argument and a
string fallback: `None` and `""` are falsy. -/
def pyOrElse (a : Option String) (b : String) : String :=
  match a with
  | some s => if s = "" then b else s
  | none => b

/-- Embedding of `os.environ.get(k, "")`. -/
def envGet (env : String → Option String) (k : String) : String :=
  (env k).getD ""

/-- Embedding of the credential handling of `SafeguardClient.__init__`. -/
def safeguardClientInit (api_key : Option String) (env : String → Option String) :
    Except String String :=
  let key := pyOrElse api_key (envGet env "SAFEGUARD_API_KEY")
  if key = "" then
    Except.error "API key required. Set SAFEGUARD_API_KEY env var or pass api_key."
  else
    Except.ok key

/-- Embedding of the credential handling of `SearchQueryGenerator.__init__`. -/
def searchQueryGeneratorInit (api_key : Option String) (env : String → Option String) :
    Except String String :=
  let key := pyOrElse api_key (envGet env "SAFEGUARD_API_KEY")
  if key = "" then
    Except.error "API key required for search query generator"
  else
    Except.ok key

/-- Embedding of the credential handling of `LabelerClient.__init__`: the key
is resolved the same way but never validated, so construction always
succeeds. -/
def labelerClientInit (api_key : Option String) (env : String → Option String) :
    Except String String :=
  let key := pyOrElse api_key (envGet env "SAFEGUARD_API_KEY")
  Except.ok key

/-! ## Helper lemmas for the retry loop -/

theorem callApiAux_skip_transient {α : Type} (attempts : ℕ → Except CallError α)
    (errs : ℕ → CallError) :
    ∀ (j attempt remaining : ℕ) (lastError : Option CallError) (waits : List ℕ),
      j ≤ remaining →
      (∀ i < j, attempts (attempt + i) = Except.error (errs (attempt + i)) ∧
        isTransient (errs (attempt + i)) = true) →
      callApiAux attempts remaining attempt lastError waits =
        callApiAux attempts (remaining - j) (attempt + j)
          (if j = 0 then lastError else some (errs (attempt + j - 1)))
          (waits ++ (List.range j).map fun i => backoffWait (attempt + i)) := by
  intro j
  induction j with
  | zero =>
    intro attempt remaining lastError waits _ _
    simp
  | succ n ih =>
    intro attempt remaining lastError waits hle htrans
    obtain ⟨r, rfl⟩ : ∃ r, remaining = r + 1 := ⟨remaining - 1, by omega⟩
    obtain ⟨h0, t0⟩ := htrans 0 (by omega)
    simp only [Nat.add_zero] at h0 t0
    have step : callApiAux attempts (r + 1) attempt lastError waits =
        callApiAux attempts r (attempt + 1) (some (errs attempt))
          (waits ++ [backoffWait attempt]) := by
      rw [callApiAux, h0]
      simp [t0]
    rw [step]
    have htrans' : ∀ i < n, attempts (attempt + 1 + i) = Except.error (errs (attempt + 1 + i)) ∧
        isTransient (errs (attempt + 1 + i)) = true := by
      intro i hi
      have := htrans (i + 1) (by omega)
      have harg : attempt + (i + 1) = attempt + 1 + i := by omega
      rw [harg] at this
      exact this
    rw [ih (attempt + 1) r (some (errs attempt)) (waits ++ [backoffWait attempt]) (by omega) htrans']
    have hif : (if n = 0 then some (errs attempt) else some (errs (attempt + 1 + n - 1))) =
        (if n + 1 = 0 then lastError else some (errs (attempt + (n + 1) - 1))) := by
      rw [if_neg (Nat.succ_ne_zero n)]
      by_cases hn : n = 0
      · subst hn
        simp
      · rw [if_neg hn]
        congr 2
        omega
    have hwaits : (waits ++ [backoffWait attempt]) ++
          ((List.range n).map fun i => backoffWait (attempt + 1 + i)) =
        waits ++ (List.range (n + 1)).map fun i => backoffWait (attempt + i) := by
      rw [List.append_assoc, List.singleton_append, List.range_succ_eq_map, List.map_cons,
        List.map_map]
      have hfun : ((fun i => backoffWait (attempt + i)) ∘ Nat.succ) =
          fun i => backoffWait (attempt + 1 + i) := by
        funext i
        show backoffWait (attempt + Nat.succ i) = backoffWait (attempt + 1 + i)
        congr 1
        omega
      rw [hfun]
      simp
    have hrem : r - n = r + 1 - (n + 1) := by omega
    have hatt : attempt + 1 + n = attempt + (n + 1) := by omega
    rw [hif, hwaits, hrem, hatt]

/-! ## Claim theorems -/

/-- C1 counterexample: on the completed set {0, 1, 3, 4} the code's
`get_contiguous_completed` returns 2 (the smallest index not in the set), but
the spec's description of the recomputed quantity — "the smallest index not
yet in the completed set, minus one" — yields 1, so the returned value does
not agree with that description. -/
theorem frontier_spec_description_counterexample :
    get_contiguous_completed ({0, 1, 3, 4} : Finset ℕ) = 2 ∧
    specHighestContiguousCompleted ({0, 1, 3, 4} : Finset ℕ) = 1 ∧
    get_contiguous_completed ({0, 1, 3, 4} : Finset ℕ) ≠
      specHighestContiguousCompleted ({0, 1, 3, 4} : Finset ℕ) := by
  have h2 := get_contiguous_completed_concrete
  have h1 : specHighestContiguousCompleted ({0, 1, 3, 4} : Finset ℕ) = 1 := by
    rw [specHighestContiguousCompleted, leastMissing_concrete]
  exact ⟨h2, h1, by rw [h2, h1]; omega⟩

/-- C1 (amended): for every completed set S, `get_contiguous_completed`
returns the smallest index not in S — it never advances past the first
still-pending index, and on S = {0, 1, 3, 4} with index 2 pending it returns
2, not 5; this value is the first pending index itself, one greater than the
spec's "smallest index not yet in the completed set, minus one" description
of the highest contiguous completed index. -/
theorem frontier_returns_least_missing :
    (∀ S : Finset ℕ, get_contiguous_completed S = leastMissing S) ∧
    (∀ S : Finset ℕ, get_contiguous_completed S ∉ S ∧
      ∀ m < get_contiguous_completed S, m ∈ S) ∧
    get_contiguous_completed ({0, 1, 3, 4} : Finset ℕ) = 2 ∧
    ∀ S : Finset ℕ, specHighestContiguousCompleted S = get_contiguous_completed S - 1 := by
  refine ⟨get_contiguous_completed_eq, ?_, get_contiguous_completed_concrete, ?_⟩
  · exact fun S => ⟨get_contiguous_completed_not_mem S, get_contiguous_completed_mem_below S⟩
  · intro S
    rw [specHighestContiguousCompleted, get_contiguous_completed_eq]

/-- C1 witness: index 1 lies below the frontier of {0, 1, 3, 4} and is indeed
completed. -/
theorem frontier_returns_least_missing_witness :
    1 < get_contiguous_completed ({0, 1, 3, 4} : Finset ℕ) ∧
    (1 : ℕ) ∈ ({0, 1, 3, 4} : Finset ℕ) :=
  ⟨by decide, (frontier_returns_least_missing.2.1 ({0, 1, 3, 4} : Finset ℕ)).2 1 (by decide)⟩

/-- C10: the contiguous frontier is monotone in the completed set — adding a
completed index never decreases it — and hence every engine completion step
(`recordCompletion`, the only way the run mutates `completed_indices`) leaves
the frontier greater than or equal to its previous value. -/
theorem frontier_monotone :
    (∀ (S : Finset ℕ) (i : ℕ),
      get_contiguous_completed S ≤ get_contiguous_completed (insert i S)) ∧
    ∀ (s : EngineState ℕ) (idx r : ℕ),
      get_contiguous_completed s.completed ≤
        get_contiguous_completed (recordCompletion s idx r).completed := by
  have hset : ∀ (S : Finset ℕ) (i : ℕ),
      get_contiguous_completed S ≤ get_contiguous_completed (insert i S) := by
    intro S i
    rw [get_contiguous_completed_eq, get_contiguous_completed_eq]
    exact leastMissing_mono (Finset.subset_insert i S)
  exact ⟨hset, fun s idx r => hset s.completed idx⟩

/-- C2: from every reachable engine state — completions arriving in any
order — the checkpoint body writes a gap-free prefix: the ordered results
list has exactly `contiguous` entries and its i-th entry is the (populated)
result slot of index i, for every i below the stored `last_index`. -/
theorem checkpoint_prefix_gap_free {α : Type} {k N : ℕ} {loaded : List α}
    {s : EngineState α} (hreach : Reachable α k N loaded s) :
    (orderedResults s (get_contiguous_completed s.completed)).length =
      get_contiguous_completed s.completed ∧
    ∀ i < get_contiguous_completed s.completed,
      (s.resultsDict i).isSome = true ∧
      (orderedResults s (get_contiguous_completed s.completed)).get? i = s.resultsDict i := by
  have hpop := reachable_resultsPopulated hreach
  have hall : ∀ x ∈ List.range (get_contiguous_completed s.completed),
      (s.resultsDict x).isSome := by
    intro x hx
    exact hpop x (get_contiguous_completed_mem_below s.completed x (List.mem_range.mp hx))
  obtain ⟨hlen, hget⟩ := filterMap_length_of_all_isSome s.resultsDict _ hall
  constructor
  · rw [orderedResults, hlen, List.length_range]
  · intro i hi
    refine ⟨hpop i (get_contiguous_completed_mem_below s.completed i hi), ?_⟩
    rw [orderedResults, hget i, List.get?_range hi]
    simp

/-- C2 witness: a two-item run where item 1 completes before item 0. -/
theorem checkpoint_prefix_gap_free_witness :
    (orderedResults (recordCompletion (recordCompletion (initState ℕ 0 2 []) 1 10) 0 20)
        (get_contiguous_completed
          (recordCompletion (recordCompletion (initState ℕ 0 2 []) 1 10) 0 20).completed)).length =
      get_contiguous_completed
        (recordCompletion (recordCompletion (initState ℕ 0 2 []) 1 10) 0 20).completed ∧
    ∀ i < get_contiguous_completed
        (recordCompletion (recordCompletion (initState ℕ 0 2 []) 1 10) 0 20).completed,
      ((recordCompletion (recordCompletion (initState ℕ 0 2 []) 1 10) 0 20).resultsDict i).isSome
          = true ∧
      (orderedResults (recordCompletion (recordCompletion (initState ℕ 0 2 []) 1 10) 0 20)
          (get_contiguous_completed
            (recordCompletion (recordCompletion (initState ℕ 0 2 []) 1 10) 0 20).completed)).get? i =
        (recordCompletion (recordCompletion (initState ℕ 0 2 []) 1 10) 0 20).resultsDict i :=
  checkpoint_prefix_gap_free
    (Reachable.step 20
      (Reachable.step 10 (Reachable.init rfl) (by decide) (by decide) (by decide))
      (by decide) (by decide) (by decide))

/-- C3: on start with a checkpoint holding `last_index = k` and its length-k
result prefix, the engine dispatches exactly the item indices with
`k ≤ idx < N` (never re-dispatching an index below k), the loaded prefix
fills every result slot below k, and the first dispatched index is k
itself. -/
theorem resume_dispatch {α : Type} (k N : ℕ) (loaded : List α)
    (hlen : loaded.length = k) :
    (∀ idx, idx ∈ items_to_process k N ↔ k ≤ idx ∧ idx < N) ∧
    (∀ i < k, ((initState α k N loaded).resultsDict i).isSome = true) ∧
    (k < N → k ∈ items_to_process k N ∧ ∀ j ∈ items_to_process k N, k ≤ j) := by
  have hmem : ∀ idx, idx ∈ items_to_process k N ↔ k ≤ idx ∧ idx < N := by
    intro idx
    simp [items_to_process, List.mem_filter, List.mem_range, and_comm]
  refine ⟨hmem, ?_, ?_⟩
  · intro i hi
    show (loaded.get? i).isSome = true
    cases hget : loaded.get? i with
    | none => exact absurd (List.get?_eq_none.mp hget) (by omega)
    | some r => rfl
  · intro hkN
    exact ⟨(hmem k).mpr ⟨le_refl k, hkN⟩, fun j hj => ((hmem j).mp hj).1⟩

/-- C3 witness: resume at k = 2 of N = 4 items with a loaded prefix of
length 2. -/
theorem resume_dispatch_witness :
    (∀ idx, idx ∈ items_to_process 2 4 ↔ 2 ≤ idx ∧ idx < 4) ∧
    (∀ i < 2, ((initState ℕ 2 4 [10, 20]).resultsDict i).isSome = true) ∧
    (2 < 4 → 2 ∈ items_to_process 2 4 ∧ ∀ j ∈ items_to_process 2 4, 2 ≤ j) :=
  resume_dispatch 2 4 [10, 20] rfl

/-- C8 counterexample: with interval 2, resume index 0 and three items, the
run that completes items 1, 2, 0 in that order has frontier 0 before the last
completion and frontier 3 after it — the frontier crossed the boundary 2 and
exceeds the previous checkpoint frontier 0, so the claimed condition triggers
a write, yet the code's guard (`contiguous % checkpoint_interval == 0`) does
not fire. -/
theorem checkpoint_trigger_counterexample :
    get_contiguous_completed
        (recordCompletion (recordCompletion (initState ℕ 0 3 []) 1 11) 2 12).completed = 0 ∧
    get_contiguous_completed
        (recordCompletion (recordCompletion (recordCompletion (initState ℕ 0 3 []) 1 11) 2 12)
          0 13).completed = 3 ∧
    specCrossesBoundary 2 0 3 = true ∧
    shouldCheckpoint 2 0 3 = false := by
  refine ⟨by decide, by decide, by decide, by decide⟩

/-- C8 (amended): during a checkpointed run a write occurs at a completion
step if and only if the recomputed frontier is an exact multiple of the
checkpoint interval and exceeds the run's resume start index; the guard does
not depend on the previous write, so a frontier jumping past a boundary
without landing on it triggers no write, while a frontier resting on a
boundary is re-written on later completions. -/
theorem checkpoint_trigger_exact_multiple :
    ∀ interval startIndex contiguous,
      shouldCheckpoint interval startIndex contiguous = true ↔
        startIndex < contiguous ∧ contiguous % interval = 0 := by
  intro interval startIndex contiguous
  simp [shouldCheckpoint]

/-- C4: through the `_call_api` retry wrapper, a run of transient failures
(status 502/503/504/429, timeout, connection error) on attempts `0..j-1`
produces exactly the sleeps `2^i * 2 + 1` (i.e. 3, 5, 9, 17, 33 seconds);
a success on attempt `j ≤ 4` then returns the success result within the
5-attempt ceiling; 5 consecutive transient failures re-raise the last
observed transient error; and a non-transient error on any attempt is
re-raised immediately with no further sleep or retry. -/
theorem retry_policy (α : Type) :
    (∀ (attempts : ℕ → Except CallError α) (errs : ℕ → CallError) (j : ℕ) (a : α),
      j ≤ 4 →
      (∀ i < j, attempts i = Except.error (errs i) ∧ isTransient (errs i) = true) →
      attempts j = Except.ok a →
      call_api attempts = (Except.ok a, (List.range j).map backoffWait)) ∧
    (∀ (attempts : ℕ → Except CallError α) (errs : ℕ → CallError),
      (∀ i < 5, attempts i = Except.error (errs i) ∧ isTransient (errs i) = true) →
      call_api attempts = (Except.error (some (errs 4)), [3, 5, 9, 17, 33])) ∧
    (∀ (attempts : ℕ → Except CallError α) (errs : ℕ → CallError) (j : ℕ) (e : CallError),
      j ≤ 4 →
      (∀ i < j, attempts i = Except.error (errs i) ∧ isTransient (errs i) = true) →
      attempts j = Except.error e →
      isTransient e = false →
      call_api attempts = (Except.error (some e), (List.range j).map backoffWait)) := by
  have hskip : ∀ (attempts : ℕ → Except CallError α) (errs : ℕ → CallError) (j : ℕ),
      j ≤ 5 →
      (∀ i < j, attempts i = Except.error (errs i) ∧ isTransient (errs i) = true) →
      call_api attempts = callApiAux attempts (5 - j) j
        (if j = 0 then none else some (errs (j - 1))) ((List.range j).map backoffWait) := by
    intro attempts errs j hj htrans
    have htrans0 : ∀ i < j, attempts (0 + i) = Except.error (errs (0 + i)) ∧
        isTransient (errs (0 + i)) = true := by
      intro i hi
      simpa using htrans i hi
    have h := callApiAux_skip_transient attempts errs j 0 5 none [] hj htrans0
    rw [call_api, h]
    have hmap : ((List.range j).map fun i => backoffWait (0 + i)) =
        (List.range j).map backoffWait := by
      congr 1
      funext i
      rw [Nat.zero_add]
    rw [Nat.zero_add, List.nil_append, hmap]
  refine ⟨?_, ?_, ?_⟩
  · intro attempts errs j a hj htrans hsucc
    rw [hskip attempts errs j (by omega) htrans]
    obtain ⟨m, hm⟩ : ∃ m, 5 - j = m + 1 := ⟨4 - j, by omega⟩
    rw [hm, callApiAux, hsucc]
  · intro attempts errs htrans
    rw [hskip attempts errs 5 (by omega) htrans]
    rw [show (5 : ℕ) - 5 = 0 from rfl, callApiAux]
    have hm : (List.range 5).map backoffWait = [3, 5, 9, 17, 33] := by decide
    rw [hm]
    simp
  · intro attempts errs j e hj htrans herr hnt
    rw [hskip attempts errs j (by omega) htrans]
    obtain ⟨m, hm⟩ : ∃ m, 5 - j = m + 1 := ⟨4 - j, by omega⟩
    rw [hm, callApiAux, herr]
    simp [hnt]

/-- C4 witness: timeouts on attempts 0 and 1, then success on attempt 2,
returns the success with sleeps 3 and 5 seconds. -/
theorem retry_policy_witness :
    call_api (fun i => if i < 2 then Except.error CallError.timeoutExc else Except.ok 7) =
      (Except.ok 7, [3, 5]) := by
  have h := (retry_policy ℕ).1
    (fun i => if i < 2 then Except.error CallError.timeoutExc else Except.ok 7)
    (fun _ => CallError.timeoutExc) 2 7 (by omega)
    (fun i hi => ⟨by simp [hi], rfl⟩)
    (by simp)
  have hm : (List.range 2).map backoffWait = [3, 5] := by decide
  rw [hm] at h
  exact h

/-- C5: arbitration is invoked exactly when the dataset label is violation
and the classifier verdict is safe; `classifier_correct = true` flips the
adjudicated expected label from violation to safe (recorded as an override),
turning the would-be false negative into a true negative; on
`classifier_correct = false` or an arbitration exception the dataset label is
kept, and the sample is still appended to the scored pairs. -/
theorem arbitration_adjudication :
    (∀ (datasetLabel predicted : Bool) (call : Except String ArbitrationDecision),
      (arbitrateSample true datasetLabel predicted call).invoked =
        (datasetLabel && !predicted)) ∧
    (∀ ex, arbitrateSample true true false (Except.ok ⟨true, ex⟩) =
      { expected := false, invoked := true, overrode := true }) ∧
    (∀ ex, arbitrateSample true true false (Except.ok ⟨false, ex⟩) =
      { expected := true, invoked := true, overrode := false }) ∧
    (∀ msg, arbitrateSample true true false (Except.error msg) =
      { expected := true, invoked := true, overrode := false }) ∧
    (∀ msg, processSample true true (Except.ok false) (Except.error msg) =
      some (true, false)) ∧
    (∀ ex, processSample true true (Except.ok false) (Except.ok ⟨true, ex⟩) =
      some (false, false)) ∧
    (confusionCounts [(true, false)]).fn = 1 ∧ (confusionCounts [(true, false)]).tn = 0 ∧
    (confusionCounts [(false, false)]).tn = 1 ∧ (confusionCounts [(false, false)]).fn = 0 := by
  refine ⟨?_, fun ex => rfl, fun ex => rfl, fun msg => rfl, fun msg => rfl, fun ex => rfl,
    rfl, rfl, rfl, rfl⟩
  intro datasetLabel predicted call
  cases call with
  | ok dec =>
    cases hd : dec.classifier_correct <;> cases datasetLabel <;> cases predicted <;>
      simp [arbitrateSample, hd]
  | error msg =>
    cases datasetLabel <;> cases predicted <;> simp [arbitrateSample]

/-- C6 counterexample: on an empty result set, `calculate_e2e_metrics` has
zero-denominator precision and recall and reports them as 100, not 0. -/
theorem e2e_zero_denominator_counterexample :
    e2eConfusion [] = { tp := 0, fp := 0, fn := 0, tn := 0 } ∧
    e2ePrecision (e2eConfusion []) = 100 ∧
    e2eRecall (e2eConfusion []) = 100 ∧
    (100 : ℚ) ≠ 0 := by
  refine ⟨rfl, rfl, rfl, by norm_num⟩

/-- C6 (amended): `calculate_metrics` (metrics.py, via `zero_division=0`)
reports precision and recall as 0 when their denominators are 0, while
`calculate_e2e_metrics` (run_e2e_pii_eval.py) reports them as 100.0 on a zero
denominator; in both, the zero-denominator case takes a guarded branch, so no
division by zero is attempted. -/
theorem zero_denominator_scores :
    (∀ c : Confusion, c.tp + c.fp = 0 → precision_score c = 0) ∧
    (∀ c : Confusion, c.tp + c.fn = 0 → recall_score c = 0) ∧
    (∀ c : Confusion, c.tp + c.fp = 0 → e2ePrecision c = 100) ∧
    (∀ c : Confusion, c.tp + c.fn = 0 → e2eRecall c = 100) := by
  refine ⟨?_, ?_, ?_, ?_⟩ <;> intro c h <;>
    simp [precision_score, recall_score, e2ePrecision, e2eRecall, h]

/-- C6 witness: the all-zero confusion matrix. -/
theorem zero_denominator_scores_witness :
    precision_score { tp := 0, fp := 0, fn := 0, tn := 0 } = 0 ∧
    recall_score { tp := 0, fp := 0, fn := 0, tn := 0 } = 0 ∧
    e2ePrecision { tp := 0, fp := 0, fn := 0, tn := 0 } = 100 ∧
    e2eRecall { tp := 0, fp := 0, fn := 0, tn := 0 } = 100 :=
  ⟨zero_denominator_scores.1 _ rfl, zero_denominator_scores.2.1 _ rfl,
    zero_denominator_scores.2.2.1 _ rfl, zero_denominator_scores.2.2.2 _ rfl⟩

/-- C7 counterexample: in the e2e eval a query whose safeguard call failed
keeps the default `safeguard_flagged = False`, and — the labeler call failing
too — `calculate_e2e_metrics` counts it as a true negative instead of
excluding it from the confusion matrix. -/
theorem e2e_errored_query_counterexample :
    (processQuery (Except.error "boom") (Except.error "boom")).safeguard_error =
      some "boom" ∧
    e2eConfusion [processQuery (Except.error "boom") (Except.error "boom")] =
      { tp := 0, fp := 0, fn := 0, tn := 1 } :=
  ⟨rfl, rfl⟩

/-- C7 (amended): in the sample evals (run_eval.py) an item whose
classification call failed is excluded from `y_true`/`y_pred`, contributing to
no confusion cell wherever it occurs, and the error count is surfaced
separately — every sample is either scored or counted as an error; in the e2e
eval (run_e2e_pii_eval.py), by contrast, a query whose safeguard call failed
keeps its defaults and is still counted in the confusion matrix. -/
theorem errored_items_excluded :
    (∀ (arbiterEnabled datasetLabel : Bool) (e : String)
        (arb : Except String ArbitrationDecision),
      processSample arbiterEnabled datasetLabel (Except.error e) arb = none) ∧
    (∀ (arbiterEnabled : Bool) (pre post : List SampleRun) (datasetLabel : Bool)
        (e : String) (arb : Except String ArbitrationDecision),
      runEvalPairs arbiterEnabled
          (pre ++ SampleRun.mk datasetLabel (Except.error e) arb :: post) =
        runEvalPairs arbiterEnabled (pre ++ post)) ∧
    (∀ (arbiterEnabled : Bool) (samples : List SampleRun),
      (runEvalPairs arbiterEnabled samples).length + runEvalErrorCount samples =
        samples.length) ∧
    (e2eConfusion [processQuery (Except.error "x") (Except.ok false)]).tn = 1 := by
  refine ⟨fun _ _ _ _ => rfl, ?_, ?_, rfl⟩
  · intro arbiterEnabled pre post datasetLabel e arb
    rw [runEvalPairs, runEvalPairs, List.filterMap_append, List.filterMap_append,
      List.filterMap_cons]
    rfl
  · intro arbiterEnabled samples
    induction samples with
    | nil => rfl
    | cons s l ih =>
      rw [runEvalPairs, List.filterMap_cons, runEvalErrorCount, List.countP_cons]
      rw [runEvalPairs, runEvalErrorCount] at ih
      cases hc : s.classification with
      | error e =>
        simp only [processSample, hc, List.length_cons] at ih ⊢
        rw [if_pos trivial]
        omega
      | ok predicted =>
        simp only [processSample, hc, List.length_cons] at ih ⊢
        rw [if_neg Bool.false_ne_true]
        omega

/-- C9 counterexample: `LabelerClient` performs remote gateway calls, yet
constructing it with no `api_key` argument and no credential in the
environment succeeds (with an empty key) instead of failing with a
configuration error. -/
theorem labeler_client_no_credential_counterexample :
    labelerClientInit none (fun _ => none) = Except.ok "" ∧
    ∀ msg, labelerClientInit none (fun _ => none) ≠ Except.error msg :=
  ⟨rfl, fun _ h => Except.noConfusion h⟩

/-- C9 (amended): `SafeguardClient` and `SearchQueryGenerator` fail at
construction with a configuration error exactly when the resolved credential
(argument, falling back to `SAFEGUARD_API_KEY`) is empty, before any item is
dispatched, and never construct with an empty key; `LabelerClient` performs
no such check and always constructs, so its missing credential can only
surface at call time. -/
theorem client_credential_validation :
    (∀ (api_key : Option String) (env : String → Option String),
      pyOrElse api_key (envGet env "SAFEGUARD_API_KEY") = "" →
        safeguardClientInit api_key env =
          Except.error "API key required. Set SAFEGUARD_API_KEY env var or pass api_key." ∧
        searchQueryGeneratorInit api_key env =
          Except.error "API key required for search query generator") ∧
    (∀ (api_key : Option String) (env : String → Option String) (key : String),
      safeguardClientInit api_key env = Except.ok key → key ≠ "") ∧
    (∀ (api_key : Option String) (env : String → Option String),
      labelerClientInit api_key env =
        Except.ok (pyOrElse api_key (envGet env "SAFEGUARD_API_KEY"))) := by
  refine ⟨?_, ?_, fun _ _ => rfl⟩
  · intro api_key env h
    constructor
    · simp only [safeguardClientInit, h]
      rfl
    · simp only [searchQueryGeneratorInit, h]
      rfl
  · intro api_key env key h
    simp only [safeguardClientInit] at h
    by_cases h0 : pyOrElse api_key (envGet env "SAFEGUARD_API_KEY") = ""
    · rw [if_pos h0] at h
      exact absurd h (by simp)
    · rw [if_neg h0] at h
      injection h with h'
      exact h' ▸ h0

/-- C9 witness: an empty environment (no credential anywhere) and a client
constructed with an explicit key. -/
theorem client_credential_validation_witness :
    safeguardClientInit none (fun _ => none) =
      Except.error "API key required. Set SAFEGUARD_API_KEY env var or pass api_key." ∧
    searchQueryGeneratorInit none (fun _ => none) =
      Except.error "API key required for search query generator" ∧
    ("k" : String) ≠ "" ∧
    labelerClientInit none (fun _ => none) =
      Except.ok (pyOrElse none (envGet (fun _ => none) "SAFEGUARD_API_KEY")) :=
  ⟨(client_credential_validation.1 none (fun _ => none) rfl).1,
    (client_credential_validation.1 none (fun _ => none) rfl).2,
    client_credential_validation.2.1 (some "k") (fun _ => none) "k" rfl,
    client_credential_validation.2.2 none (fun _ => none)⟩

end ConfidentialWebsearch
